import Mathlib

/-!
Verification of the feature sampling / clustering engine of `src/app.py`
(`create_clusters`, `process_features`, and the viewport-coordinate
normalization inside `proxy_landmarks`).

Modelling conventions:
* Feature coordinates and viewport bounds are rationals (`ℚ`), idealizing
  Python floats.  The one comparison the code makes through `math.sqrt`,
  `sqrt d ≤ r`, is embedded as `d ≤ r ^ 2`, which is equivalent because
  `sqrt` is monotone and both sides are nonnegative.
* `properties` is modelled as a record of the keys the code reads or
  writes (`main_category`, `Name`, `eng_name`, `is_cluster`,
  `cluster_count`, `categories`, `OBJECTID`, `Address`); a `none` field
  models an absent key.
* A feature's `geometry.coordinates` value is `Coords`: `missing` models
  an absent `geometry`/`coordinates` key (the code substitutes `[0, 0]`),
  `null` models an explicit JSON `null` (on which `len(...)` raises a
  `TypeError` inside the candidate scan), and `val cs` a list of numbers.
* The global `random` module state is threaded explicitly as a `Nat` seed;
  `random.seed` replaces it and `random.sample` is modelled as a
  deterministic draw without replacement driven by a linear congruential
  generator.  Python's per-process string `hash` is a parameter
  `pyHash : String → Int`.
* An exception escaping to the `except` block of `process_features`
  (malformed JSON, or the `TypeError` above) is modelled with `Except`.
* The `timestamp` metadata entry (wall-clock time) is not modelled.
-/

namespace AtlasProxy

/-- The `geometry.coordinates` value of an input feature.  `missing` means
the key (or the whole `geometry`) is absent, so `get` defaults to `[0,0]`;
`null` is an explicit JSON null. -/
inductive Coords where
  | missing : Coords
  | null : Coords
  | val : List ℚ → Coords
  deriving DecidableEq, Repr

/-- Reading `feature.get('geometry', {}).get('coordinates', [0, 0])`:
`none` signals a value on which `len` would raise (JSON null). -/
def getCoords : Coords → Option (List ℚ)
  | .missing => some [0, 0]
  | .null => none
  | .val cs => some cs

/-- The property keys that `app.py` reads or writes.  A `none` field models
an absent key in the `properties` dict. -/
structure Props where
  main_category : Option String
  Name : Option String
  eng_name : Option String
  is_cluster : Option Bool
  cluster_count : Option Nat
  categories : Option (List (String × Nat))
  OBJECTID : Option String
  Address : Option String
  deriving DecidableEq, Repr

/-- A `properties` dict with none of the modelled keys present. -/
def emptyProps : Props :=
  { main_category := none, Name := none, eng_name := none, is_cluster := none
    cluster_count := none, categories := none, OBJECTID := none, Address := none }

/-- One GeoJSON feature as the code sees it: its `geometry.coordinates`
and its `properties` dict (`none` when the `properties` key is absent). -/
structure Feature where
  coords : Coords
  props : Option Props
  deriving DecidableEq, Repr

/-- Reading `feature.get('properties', {})`. -/
def getProps (f : Feature) : Props := f.props.getD emptyProps

/-- First coordinate, `coords[0]` on a list known to have length ≥ 2. -/
def nth0 (cs : List ℚ) : ℚ := cs.getD 0 0

/-- Second coordinate, `coords[1]` on a list known to have length ≥ 2. -/
def nth1 (cs : List ℚ) : ℚ := cs.getD 1 0

/-- Coordinates of a feature with the `[0, 0]` default, as used on cluster
members (members never carry a JSON-null coordinate value). -/
def coordsD (f : Feature) : List ℚ := (getCoords f.coords).getD [0, 0]

/-- A feature has usable geometry: at least two coordinate components
(`len(coords) >= 2`, with the `[0,0]` default for a missing key). -/
def validGeom (f : Feature) : Bool :=
  match getCoords f.coords with
  | some cs => decide (2 ≤ cs.length)
  | none => false

/-- Mean of the first coordinates of a member list (lines 77-78). -/
def meanX (ms : List Feature) : ℚ := (ms.map (fun f => nth0 (coordsD f))).sum / ms.length

/-- Mean of the second coordinates of a member list (lines 79-80). -/
def meanY (ms : List Feature) : ℚ := (ms.map (fun f => nth1 (coordsD f))).sum / ms.length

/-- The category of a feature for the cluster histogram:
`properties.get('main_category', 'Unknown')` (line 104). -/
def catOf (f : Feature) : String := (getProps f).main_category.getD "Unknown"

/-- One `categories[category] += 1` step on the insertion-ordered
association list that models the `defaultdict(int)`. -/
def bumpCat : List (String × Nat) → String → List (String × Nat)
  | [], c => [(c, 1)]
  | (k, v) :: t, c => if k = c then (k, v + 1) :: t else (k, v) :: bumpCat t c

/-- Folding the histogram over a list of category names. -/
def foldCats (h : List (String × Nat)) : List String → List (String × Nat)
  | [] => h
  | c :: cs => foldCats (bumpCat h c) cs

/-- The category histogram of a member list, in first-encounter key order
(Python dicts iterate in insertion order). -/
def categoriesOf (ms : List Feature) : List (String × Nat) :=
  foldCats [] (ms.map catOf)

/-- The accumulator pass of Python's `max(items, key=lambda x: x[1])`:
replace the current best only on a strictly larger count. -/
def pyFold (b : String × Nat) : List (String × Nat) → String × Nat :=
  List.foldl (fun acc y => if acc.2 < y.2 then y else acc) b

/-- Python's `max(items, key=lambda x: x[1])`: the first element attaining
the maximal count (ties keep the earlier element). -/
def pyMax : List (String × Nat) → Option (String × Nat)
  | [] => none
  | x :: xs => some (pyFold x xs)

/-- `max(categories.items(), key=...)[0] if categories else 'Unknown'`
(line 107). -/
def dominantOf (h : List (String × Nat)) : String :=
  match pyMax h with
  | some p => p.1
  | none => "Unknown"

/-- Lookup with default 0 in the histogram association list. -/
def lookupD : List (String × Nat) → String → Nat
  | [], _ => 0
  | (k, v) :: t, c => if k = c then v else lookupD t c

/-- Tagging applied both at high zoom (lines 24-31) and to single-member
seeds (lines 90-96): set `is_cluster = False`, `cluster_count = 1`, and
default `Name` from `eng_name` or `'Unknown Site'` when absent. -/
def tagPointProps (p : Props) : Props :=
  { p with is_cluster := some false, cluster_count := some 1
           Name := some (p.Name.getD (p.eng_name.getD "Unknown Site")) }

/-- A feature emitted as an individual point (creating `properties` when
it is absent, as the code does). -/
def tagPoint (f : Feature) : Feature :=
  { f with props := some (tagPointProps (getProps f)) }

/-- The synthetic cluster feature built at lines 109-125. -/
def emitCluster (cid : Nat) (members : List Feature) (lon lat : ℚ) : Feature :=
  { coords := .val [lon, lat]
    props := some
      { main_category := some (dominantOf (categoriesOf members))
        Name := some ("Cluster of " ++ toString members.length ++ " Jewish Sites")
        eng_name := some ("Cluster (" ++ toString members.length ++ ")")
        is_cluster := some true
        cluster_count := some members.length
        categories := some (categoriesOf members)
        OBJECTID := some ("cluster_" ++ toString cid)
        Address := some (toString members.length ++ " sites in this area") } }

/-- Zoom-dependent cluster distance in km (lines 39-46). -/
def clusterKm (zoom : Nat) : ℚ :=
  if zoom ≤ 6 then 100 else if zoom ≤ 8 then 50 else if zoom ≤ 10 then 20 else 10

/-- `cluster_radius_degrees = cluster_distance_km / 111.0` (line 48). -/
def clusterRadiusDeg (zoom : Nat) : ℚ := clusterKm zoom / 111

/-- Keeping a rejected candidate on the `remaining` list (lines 82, 84),
threaded through the result of scanning the rest of the candidates. -/
def pushRemaining (c : Feature) :
    Except Unit (List Feature × ℚ × ℚ × List Feature) →
    Except Unit (List Feature × ℚ × ℚ × List Feature)
  | .error e => .error e
  | .ok (m2, lo2, la2, rem2) => .ok (m2, lo2, la2, c :: rem2)

/-- The inner candidate scan (lines 66-86): walk the remaining features
once; a candidate with ≥ 2 coordinates within the radius of the current
(drifting) centroid is absorbed and the centroid is recomputed as the mean
of all current members, otherwise the candidate stays unclustered.  The
source compares `math.sqrt d <= r`; this embedding compares `d ≤ r ^ 2`,
which is equivalent since both sides are nonnegative.  A JSON-null
coordinate value makes `len(coords)` raise, modelled by `.error`. -/
def scanCands (r2 : ℚ) :
    List Feature → ℚ → ℚ → List Feature →
    Except Unit (List Feature × ℚ × ℚ × List Feature)
  | members, lon, lat, [] => .ok (members, lon, lat, [])
  | members, lon, lat, c :: cs =>
    match getCoords c.coords with
    | none => .error ()
    | some ccs =>
      if 2 ≤ ccs.length then
        if (nth0 ccs - lon) ^ 2 + (nth1 ccs - lat) ^ 2 ≤ r2 then
          scanCands r2 (members ++ [c]) (meanX (members ++ [c])) (meanY (members ++ [c])) cs
        else
          pushRemaining c (scanCands r2 members lon lat cs)
      else
        pushRemaining c (scanCands r2 members lon lat cs)

/-- Appending one emitted record in front of the rest of the loop's
output (`clusters.append(...)`, order preserved). -/
def consOut (f : Feature) : Except Unit (List Feature) → Except Unit (List Feature)
  | .error e => .error e
  | .ok out => .ok (f :: out)

/-- The outer `while unclustered:` loop (lines 55-127), by fuel; the fuel
is always instantiated with the list length, which suffices because each
round consumes the seed and the scan never grows the remainder.  A seed
whose coordinates are falsy or shorter than 2 is discarded (`continue`).
Single-member groups are emitted as tagged points, larger groups as
synthetic clusters (with the running `cluster_id`). -/
def clusterLoopAux (r2 : ℚ) : Nat → Nat → List Feature → Except Unit (List Feature)
  | 0, _, _ => .ok []
  | _ + 1, _, [] => .ok []
  | n + 1, cid, seed :: rest =>
    match getCoords seed.coords with
    | none => clusterLoopAux r2 n cid rest
    | some cs =>
      if cs.length < 2 then clusterLoopAux r2 n cid rest
      else
        match scanCands r2 [seed] (nth0 cs) (nth1 cs) rest with
        | .error e => .error e
        | .ok (members, lon, lat, remaining) =>
          match members with
          | [m] => consOut (tagPoint m) (clusterLoopAux r2 n cid remaining)
          | ms => consOut (emitCluster cid ms lon lat) (clusterLoopAux r2 n (cid + 1) remaining)

/-- `create_clusters(features, zoom_level)` (lines 16-133): at zoom ≥ 12
every feature is returned tagged as an individual point; below, the greedy
clustering pass runs. -/
def createClusters (features : List Feature) (zoom : Nat) : Except Unit (List Feature) :=
  if 12 ≤ zoom then .ok (features.map tagPoint)
  else clusterLoopAux ((clusterRadiusDeg zoom) ^ 2) features.length 0 features

/-- Linear congruential step driving the model of `random.sample`. -/
def lcg (s : Nat) : Nat := (s * 1103515245 + 12345) % 2147483648

/-- Model of `random.sample(pool, k)`: `k` distinct positions drawn
without replacement, deterministically in the generator state `s`.
Arguments: count to draw, generator state, pool. -/
def randomSample {α : Type} : Nat → Nat → List α → List α
  | 0, _, _ => []
  | k + 1, s, pool =>
    match pool[lcg s % pool.length]? with
    | some y => y :: randomSample k (lcg s) (pool.eraseIdx (lcg s % pool.length))
    | none => []

/-- The priority test of lines 171-172:
`f.get('properties', {}).get('main_category') == 'Featured'`. -/
def isFeatured (f : Feature) : Bool := (getProps f).main_category == some "Featured"

/-- The sampling block of lines 166-186, with the processing cap as an
explicit parameter (the source hardcodes `max_features_for_processing =
2000`): keep every `Featured` feature, fill the remaining slots with a
pseudo-random sample of the others, or truncate the featured list when it
alone reaches the cap. -/
def sampleStage (cap : Nat) (rng : Nat) (features : List Feature) : List Feature :=
  if cap < features.length then
    let featured := features.filter isFeatured
    let others := features.filter (fun f => ! isFeatured f)
    let slots : Int := (cap : Int) - featured.length
    if 0 < slots ∧ others ≠ [] then
      if (others.length : Int) ≤ slots then featured ++ others
      else featured ++ randomSample slots.toNat rng others
    else featured.take cap
  else features

/-- `max_features_for_processing = 2000` (line 167). -/
def max_features_for_processing : Nat := 2000

/-- Viewport bounds dict built by the route handler. -/
structure BoundsQ where
  west : ℚ
  south : ℚ
  east : ℚ
  north : ℚ
  deriving DecidableEq, Repr

/-- Fixed-precision rendering of one bound, modelling the `:.3f` format
used to build the seed string: deterministic in the value. -/
def format3 (q : ℚ) : String := toString (Int.floor (q * 1000))

/-- The seed string of line 162. -/
def seedStr (b : BoundsQ) : String :=
  format3 b.west ++ "," ++ format3 b.south ++ "," ++ format3 b.east ++ "," ++ format3 b.north

/-- `seed = hash(seed_str) % (2**32)` (line 163); `pyHash` is the
per-process Python string hash. -/
def seedOf (pyHash : String → Int) (b : BoundsQ) : Nat :=
  ((pyHash (seedStr b)) % (2 ^ 32)).toNat

/-- The upstream payload as `process_features` receives it: a string that
fails `json.loads`, a JSON object without a `features` key, or a feature
list plus the remaining (untouched) JSON content. -/
inductive Upstream where
  | malformed : Upstream
  | noFeatures : String → Upstream
  | payload : List Feature → String → Upstream
  deriving DecidableEq, Repr

/-- The metadata block of lines 199-209 (`timestamp` not modelled). -/
structure Metadata where
  processed : Bool
  original_count : Nat
  returned_count : Nat
  cluster_count : Nat
  point_count : Nat
  zoom_level : Nat
  display_mode : String
  viewport_bounds : Option BoundsQ
  deriving DecidableEq, Repr

/-- What `process_features` returns: the input string verbatim
(`unchanged`, covering every fallback path) or the re-serialized payload
with processed features and metadata. -/
inductive PFResult where
  | unchanged : PFResult
  | result : List Feature → Metadata → String → PFResult
  deriving DecidableEq, Repr

/-- Truthiness of `properties.get('is_cluster', False)` (lines 196-197). -/
def isClusterRec (f : Feature) : Bool := (getProps f).is_cluster.getD false

/-- The state of the `random` module when `random.sample` runs: the seeded
state when viewport bounds are present (lines 161-164), the ambient global
state otherwise. -/
def effRng (pyHash : String → Int) (rng : Nat) (vb : Option BoundsQ) : Nat :=
  match vb with
  | some b => seedOf pyHash b
  | none => rng

/-- `process_features(response_data, zoom_level, viewport_bounds)`
(lines 135-227).  `rng` is the state of the global `random` module on
entry; when viewport bounds are present it is replaced by the seeded
state.  Every exception path (malformed JSON, the candidate-scan
`TypeError`) and the guard paths (no `features` key, zero features)
return the input string unchanged. -/
def processFeatures (pyHash : String → Int) (cap : Nat) (rng : Nat)
    (u : Upstream) (zoom : Nat) (vb : Option BoundsQ) : PFResult :=
  match u with
  | .malformed => .unchanged
  | .noFeatures _ => .unchanged
  | .payload features rest =>
    if features.length = 0 then .unchanged
    else
      let sampled := sampleStage cap (effRng pyHash rng vb) features
      match createClusters sampled zoom with
      | .error _ => .unchanged
      | .ok processed =>
        .result processed
          { processed := true
            original_count := features.length
            returned_count := processed.length
            cluster_count := (processed.filter isClusterRec).length
            point_count := (processed.filter (fun f => ! isClusterRec f)).length
            zoom_level := zoom
            display_mode := if zoom < 12 then "clusters" else "points"
            viewport_bounds := vb } rest

/-- Sum over output records of their member counts: `cluster_count` for a
cluster, 1 for a standalone point (every emitted record carries the key,
and absent keys default to 1 as in the frontend's read). -/
def sumMemberCounts (out : List Feature) : Nat :=
  (out.map (fun f => (getProps f).cluster_count.getD 1)).sum

/-- Number of geometry-valid features in a list. -/
def validCount (l : List Feature) : Nat := l.countP validGeom

/-- How many times the `Featured` category is represented in an output
list: standalone Featured points count 1, clusters contribute their
histogram entry for `Featured`. -/
def featuredOutCount (out : List Feature) : Nat :=
  (out.map (fun f =>
    if isClusterRec f then lookupD ((getProps f).categories.getD []) "Featured"
    else if isFeatured f then 1 else 0)).sum

/-- First-occurrence order of a list of category names (`seen` holds the
names already listed): the key order of a Python dict filled by insertion,
used to state the first-encounter guarantee for cluster histograms. -/
def firstEncounterOrder (seen : List String) : List String → List String
  | [] => []
  | c :: cs =>
    if c ∈ seen then firstEncounterOrder seen cs
    else c :: firstEncounterOrder (seen ++ [c]) cs

/-! ### The viewport coordinate normalizer (`proxy_landmarks`, lines 253-298)

The route handler reads `xmin, ymin, xmax, ymax` and treats the envelope
as Web Mercator exactly when `abs(xmin) > 180 or abs(ymin) > 90`
(line 263); the inverse projection uses `exp`/`atan`, so this corner of
the embedding lives over `ℝ` and is noncomputable — no claim about it
needs evaluation beyond rational arithmetic on one coordinate. -/

/-- Viewport bounds over `ℝ` as produced by the normalizer. -/
structure BoundsR where
  west : ℝ
  south : ℝ
  east : ℝ
  north : ℝ

/-- `webmercator_to_wgs84(x, y)` (lines 268-273):
`lon = x / 20037508.34 * 180`, then
`lat = 180/π · (2·atan(exp((y / 20037508.34 * 180)·π/180)) − π/2)`. -/
noncomputable def webmercator_to_wgs84 (x y : ℝ) : ℝ × ℝ :=
  (x / 20037508.34 * 180,
   180 / Real.pi *
     (2 * Real.arctan (Real.exp ((y / 20037508.34 * 180) * Real.pi / 180)) - Real.pi / 2))

/-- The envelope normalization of lines 262-298: convert both corners
with the Web-Mercator inverse when `|xmin| > 180 ∨ |ymin| > 90`,
otherwise pass the four values through unchanged. -/
noncomputable def normalizeViewport (xmin ymin xmax ymax : ℝ) : BoundsR :=
  if 180 < |xmin| ∨ 90 < |ymin| then
    ⟨(webmercator_to_wgs84 xmin ymin).1, (webmercator_to_wgs84 xmin ymin).2,
     (webmercator_to_wgs84 xmax ymax).1, (webmercator_to_wgs84 xmax ymax).2⟩
  else ⟨xmin, ymin, xmax, ymax⟩

/-- Modelled from the spec (§4.1), for refinement comparison with
`normalizeViewport`: the spec's Coordinate Normalizer treats the envelope
as projected when the magnitude of ANY of the four coordinates exceeds
geographic bounds. -/
noncomputable def specNormalizeViewport (xmin ymin xmax ymax : ℝ) : BoundsR :=
  if 180 < |xmin| ∨ 90 < |ymin| ∨ 180 < |xmax| ∨ 90 < |ymax| then
    ⟨(webmercator_to_wgs84 xmin ymin).1, (webmercator_to_wgs84 xmin ymin).2,
     (webmercator_to_wgs84 xmax ymax).1, (webmercator_to_wgs84 xmax ymax).2⟩
  else ⟨xmin, ymin, xmax, ymax⟩

/-- Decidable equality for `Except` results, so clustering outcomes on
concrete inputs can be checked by evaluation. -/
instance {ε α : Type} [DecidableEq ε] [DecidableEq α] : DecidableEq (Except ε α) := fun x y =>
  match x, y with
  | .error a, .error b =>
    if h : a = b then .isTrue (by rw [h])
    else .isFalse (fun hh => by cases hh; exact h rfl)
  | .error _, .ok _ => .isFalse (fun hh => by cases hh)
  | .ok _, .error _ => .isFalse (fun hh => by cases hh)
  | .ok a, .ok b =>
    if h : a = b then .isTrue (by rw [h])
    else .isFalse (fun hh => by cases hh; exact h rfl)

/-! ### Concrete fixtures used by witnesses and counterexamples -/

/-- A stand-in for the per-process Python string hash. -/
def cexHash : String → Int := fun _ => 0

/-- Point at the origin. -/
def fA : Feature := ⟨.val [0, 0], some { emptyProps with eng_name := some "A" }⟩

/-- Point 0.1 degrees east of `fA` (inside every clustering radius). -/
def fB : Feature := ⟨.val [1/10, 0], some { emptyProps with eng_name := some "B" }⟩

/-- Remote point, outside every clustering radius of `fA`. -/
def fC : Feature := ⟨.val [50, 50], some { emptyProps with eng_name := some "C" }⟩

/-- Feature with a one-element coordinate list (invalid geometry). -/
def fShort : Feature := ⟨.val [5], some { emptyProps with eng_name := some "S" }⟩

/-- Feature whose `coordinates` is JSON null (raises in the scan). -/
def fNull : Feature := ⟨.null, some { emptyProps with eng_name := some "N" }⟩

/-- Feature with no `properties` and no geometry at all. -/
def fNoName : Feature := ⟨.missing, none⟩

/-- Three distinct valid points for the determinism counterexample. -/
def fX : Feature := ⟨.val [0, 0], some { emptyProps with eng_name := some "X" }⟩

/-- Second distinct point. -/
def fY : Feature := ⟨.val [1, 1], some { emptyProps with eng_name := some "Y" }⟩

/-- Third distinct point. -/
def fZ : Feature := ⟨.val [2, 2], some { emptyProps with eng_name := some "Z" }⟩

/-- A `Featured` feature with valid geometry. -/
def gA : Feature := ⟨.val [0, 0], some { emptyProps with main_category := some "Featured" }⟩

/-- A `Featured` feature whose coordinate list is empty (invalid). -/
def fFeatBad : Feature := ⟨.val [], some { emptyProps with main_category := some "Featured" }⟩

/-! ### Generic list helpers -/

theorem count_eraseIdx_add {α : Type} [BEq α] :
    ∀ (l : List α) (i : Nat) (y : α), l[i]? = some y →
      ∀ a, l.count a = (l.eraseIdx i).count a + (if y == a then 1 else 0)
  | [], i, y, h, a => by simp at h
  | b :: t, 0, y, h, a => by
    rw [List.getElem?_cons_zero] at h
    cases h
    simp [List.count_cons]
  | b :: t, i + 1, y, h, a => by
    rw [List.getElem?_cons_succ] at h
    have ih := count_eraseIdx_add t i y h a
    simp only [List.eraseIdx_cons_succ, List.count_cons, ih]
    omega

/-! ### Properties of the `random.sample` model -/

theorem randomSample_length_le_k {α : Type} :
    ∀ (k s : Nat) (pool : List α), (randomSample k s pool).length ≤ k
  | 0, _, _ => by simp [randomSample]
  | k + 1, s, pool => by
    rw [randomSample]
    cases hp : pool[lcg s % pool.length]? with
    | none => simp
    | some y =>
      simpa using randomSample_length_le_k k (lcg s) (pool.eraseIdx (lcg s % pool.length))

theorem randomSample_length_le_pool {α : Type} :
    ∀ (k s : Nat) (pool : List α), (randomSample k s pool).length ≤ pool.length
  | 0, _, _ => by simp [randomSample]
  | k + 1, s, pool => by
    rw [randomSample]
    cases hp : pool[lcg s % pool.length]? with
    | none => simp
    | some y =>
      have hlt : lcg s % pool.length < pool.length :=
        (List.getElem?_eq_some_iff.mp hp).1
      have ih := randomSample_length_le_pool k (lcg s) (pool.eraseIdx (lcg s % pool.length))
      have hlen := List.length_eraseIdx_of_lt hlt
      simp only [List.length_cons]
      omega

theorem randomSample_count_le {α : Type} [BEq α] :
    ∀ (k s : Nat) (pool : List α) (a : α),
      (randomSample k s pool).count a ≤ pool.count a
  | 0, _, _, a => by simp [randomSample]
  | k + 1, s, pool, a => by
    rw [randomSample]
    cases hp : pool[lcg s % pool.length]? with
    | none => simp
    | some y =>
      have ih := randomSample_count_le k (lcg s) (pool.eraseIdx (lcg s % pool.length)) a
      have hc := count_eraseIdx_add pool (lcg s % pool.length) y hp a
      simp only [List.count_cons, hc]
      omega

theorem randomSample_subset {α : Type} :
    ∀ (k s : Nat) (pool : List α) (x : α), x ∈ randomSample k s pool → x ∈ pool
  | 0, _, _, x => by simp [randomSample]
  | k + 1, s, pool, x => by
    rw [randomSample]
    cases hp : pool[lcg s % pool.length]? with
    | none => simp
    | some y =>
      intro hx
      rcases List.mem_cons.mp hx with rfl | hx
      · exact List.getElem?_mem hp
      · exact List.mem_of_mem_eraseIdx
          (randomSample_subset k (lcg s) (pool.eraseIdx (lcg s % pool.length)) x hx)

/-! ### Properties of the candidate scan -/

theorem scanCands_countP (r2 : ℚ) (p : Feature → Bool) (cands : List Feature) :
    ∀ (members : List Feature) (lon lat : ℚ) (m2 : List Feature) (lo2 la2 : ℚ)
      (rem2 : List Feature),
      scanCands r2 members lon lat cands = .ok (m2, lo2, la2, rem2) →
      m2.countP p + rem2.countP p = members.countP p + cands.countP p := by
  induction cands with
  | nil =>
    intro members lon lat m2 lo2 la2 rem2 h
    rw [scanCands] at h
    simp only [Except.ok.injEq, Prod.mk.injEq] at h
    obtain ⟨rfl, rfl, rfl, rfl⟩ := h
    simp
  | cons c cs ih =>
    intro members lon lat m2 lo2 la2 rem2 h
    rw [scanCands] at h
    cases hg : getCoords c.coords with
    | none => rw [hg] at h; cases h
    | some ccs =>
      rw [hg] at h
      dsimp only at h
      split_ifs at h with hl hd
      · have := ih (members ++ [c]) (meanX (members ++ [c])) (meanY (members ++ [c]))
          m2 lo2 la2 rem2 h
        simp only [List.countP_append, List.countP_cons, List.countP_nil] at this ⊢
        omega
      · cases hrec : scanCands r2 members lon lat cs with
        | error e => rw [hrec] at h; simp [pushRemaining] at h
        | ok q =>
          obtain ⟨n2, no2, na2, nrem⟩ := q
          rw [hrec] at h
          simp only [pushRemaining, Except.ok.injEq, Prod.mk.injEq] at h
          obtain ⟨rfl, rfl, rfl, rfl⟩ := h
          have := ih members lon lat n2 no2 na2 nrem hrec
          simp only [List.countP_cons] at this ⊢
          omega
      · cases hrec : scanCands r2 members lon lat cs with
        | error e => rw [hrec] at h; simp [pushRemaining] at h
        | ok q =>
          obtain ⟨n2, no2, na2, nrem⟩ := q
          rw [hrec] at h
          simp only [pushRemaining, Except.ok.injEq, Prod.mk.injEq] at h
          obtain ⟨rfl, rfl, rfl, rfl⟩ := h
          have := ih members lon lat n2 no2 na2 nrem hrec
          simp only [List.countP_cons] at this ⊢
          omega

theorem scanCands_members_length (r2 : ℚ) (cands : List Feature) :
    ∀ (members : List Feature) (lon lat : ℚ) (m2 : List Feature) (lo2 la2 : ℚ)
      (rem2 : List Feature),
      scanCands r2 members lon lat cands = .ok (m2, lo2, la2, rem2) →
      members.length ≤ m2.length := by
  induction cands with
  | nil =>
    intro members lon lat m2 lo2 la2 rem2 h
    rw [scanCands] at h
    simp only [Except.ok.injEq, Prod.mk.injEq] at h
    obtain ⟨rfl, rfl, rfl, rfl⟩ := h
    exact Nat.le_refl _
  | cons c cs ih =>
    intro members lon lat m2 lo2 la2 rem2 h
    rw [scanCands] at h
    cases hg : getCoords c.coords with
    | none => rw [hg] at h; cases h
    | some ccs =>
      rw [hg] at h
      dsimp only at h
      split_ifs at h with hl hd
      · have := ih (members ++ [c]) (meanX (members ++ [c])) (meanY (members ++ [c]))
          m2 lo2 la2 rem2 h
        simp only [List.length_append, List.length_cons, List.length_nil] at this
        omega
      · cases hrec : scanCands r2 members lon lat cs with
        | error e => rw [hrec] at h; simp [pushRemaining] at h
        | ok q =>
          obtain ⟨n2, no2, na2, nrem⟩ := q
          rw [hrec] at h
          simp only [pushRemaining, Except.ok.injEq, Prod.mk.injEq] at h
          obtain ⟨rfl, rfl, rfl, rfl⟩ := h
          exact ih members lon lat n2 no2 na2 nrem hrec
      · cases hrec : scanCands r2 members lon lat cs with
        | error e => rw [hrec] at h; simp [pushRemaining] at h
        | ok q =>
          obtain ⟨n2, no2, na2, nrem⟩ := q
          rw [hrec] at h
          simp only [pushRemaining, Except.ok.injEq, Prod.mk.injEq] at h
          obtain ⟨rfl, rfl, rfl, rfl⟩ := h
          exact ih members lon lat n2 no2 na2 nrem hrec

theorem scanCands_rem_length (r2 : ℚ) (cands : List Feature)
    (members : List Feature) (lon lat : ℚ) (m2 : List Feature) (lo2 la2 : ℚ)
    (rem2 : List Feature)
    (h : scanCands r2 members lon lat cands = .ok (m2, lo2, la2, rem2)) :
    rem2.length ≤ cands.length := by
  have h1 := scanCands_countP r2 (fun _ => true) cands members lon lat m2 lo2 la2 rem2 h
  have h2 := scanCands_members_length r2 cands members lon lat m2 lo2 la2 rem2 h
  simp only [List.countP_true] at h1
  omega

theorem scanCands_members_valid (r2 : ℚ) (cands : List Feature) :
    ∀ (members : List Feature) (lon lat : ℚ) (m2 : List Feature) (lo2 la2 : ℚ)
      (rem2 : List Feature),
      scanCands r2 members lon lat cands = .ok (m2, lo2, la2, rem2) →
      (∀ f ∈ members, validGeom f = true) → ∀ f ∈ m2, validGeom f = true := by
  induction cands with
  | nil =>
    intro members lon lat m2 lo2 la2 rem2 h hv
    rw [scanCands] at h
    simp only [Except.ok.injEq, Prod.mk.injEq] at h
    obtain ⟨rfl, rfl, rfl, rfl⟩ := h
    exact hv
  | cons c cs ih =>
    intro members lon lat m2 lo2 la2 rem2 h hv
    rw [scanCands] at h
    cases hg : getCoords c.coords with
    | none => rw [hg] at h; cases h
    | some ccs =>
      rw [hg] at h
      dsimp only at h
      split_ifs at h with hl hd
      · refine ih (members ++ [c]) (meanX (members ++ [c])) (meanY (members ++ [c]))
          m2 lo2 la2 rem2 h ?_
        intro f hf
        rcases List.mem_append.mp hf with hf | hf
        · exact hv f hf
        · rcases List.mem_singleton.mp hf with rfl
          simp [validGeom, hg, hl]
      · cases hrec : scanCands r2 members lon lat cs with
        | error e => rw [hrec] at h; simp [pushRemaining] at h
        | ok q =>
          obtain ⟨n2, no2, na2, nrem⟩ := q
          rw [hrec] at h
          simp only [pushRemaining, Except.ok.injEq, Prod.mk.injEq] at h
          obtain ⟨rfl, rfl, rfl, rfl⟩ := h
          exact ih members lon lat n2 no2 na2 nrem hrec hv
      · cases hrec : scanCands r2 members lon lat cs with
        | error e => rw [hrec] at h; simp [pushRemaining] at h
        | ok q =>
          obtain ⟨n2, no2, na2, nrem⟩ := q
          rw [hrec] at h
          simp only [pushRemaining, Except.ok.injEq, Prod.mk.injEq] at h
          obtain ⟨rfl, rfl, rfl, rfl⟩ := h
          exact ih members lon lat n2 no2 na2 nrem hrec hv

theorem scanCands_centroid (r2 : ℚ) (cands : List Feature) :
    ∀ (members : List Feature) (lon lat : ℚ) (m2 : List Feature) (lo2 la2 : ℚ)
      (rem2 : List Feature),
      scanCands r2 members lon lat cands = .ok (m2, lo2, la2, rem2) →
      lon = meanX members → lat = meanY members →
      lo2 = meanX m2 ∧ la2 = meanY m2 := by
  induction cands with
  | nil =>
    intro members lon lat m2 lo2 la2 rem2 h hx hy
    rw [scanCands] at h
    simp only [Except.ok.injEq, Prod.mk.injEq] at h
    obtain ⟨rfl, rfl, rfl, rfl⟩ := h
    exact ⟨hx, hy⟩
  | cons c cs ih =>
    intro members lon lat m2 lo2 la2 rem2 h hx hy
    rw [scanCands] at h
    cases hg : getCoords c.coords with
    | none => rw [hg] at h; cases h
    | some ccs =>
      rw [hg] at h
      dsimp only at h
      split_ifs at h with hl hd
      · exact ih (members ++ [c]) (meanX (members ++ [c])) (meanY (members ++ [c]))
          m2 lo2 la2 rem2 h rfl rfl
      · cases hrec : scanCands r2 members lon lat cs with
        | error e => rw [hrec] at h; simp [pushRemaining] at h
        | ok q =>
          obtain ⟨n2, no2, na2, nrem⟩ := q
          rw [hrec] at h
          simp only [pushRemaining, Except.ok.injEq, Prod.mk.injEq] at h
          obtain ⟨rfl, rfl, rfl, rfl⟩ := h
          exact ih members lon lat n2 no2 na2 nrem hrec hx hy
      · cases hrec : scanCands r2 members lon lat cs with
        | error e => rw [hrec] at h; simp [pushRemaining] at h
        | ok q =>
          obtain ⟨n2, no2, na2, nrem⟩ := q
          rw [hrec] at h
          simp only [pushRemaining, Except.ok.injEq, Prod.mk.injEq] at h
          obtain ⟨rfl, rfl, rfl, rfl⟩ := h
          exact ih members lon lat n2 no2 na2 nrem hrec hx hy

/-! ### Histogram and dominant-category lemmas -/

theorem lookupD_bumpCat : ∀ (h : List (String × Nat)) (c q : String),
    lookupD (bumpCat h c) q = lookupD h q + (if c = q then 1 else 0)
  | [], c, q => by simp [bumpCat, lookupD]
  | (k, v) :: t, c, q => by
    simp only [bumpCat]
    by_cases hk : k = c
    · subst hk
      rw [if_pos rfl]
      simp only [lookupD]
      by_cases hq : k = q
      · simp [hq]
      · simp [hq]
    · rw [if_neg hk]
      simp only [lookupD]
      by_cases hq : k = q
      · have hcq : ¬(c = q) := fun hcq => hk (by rw [hq, hcq])
        simp [hq, hcq]
      · simp [hq, lookupD_bumpCat t c q]

theorem lookupD_foldCats : ∀ (cs : List String) (h : List (String × Nat)) (q : String),
    lookupD (foldCats h cs) q = lookupD h q + cs.countP (fun c => c == q)
  | [], h, q => by simp [foldCats]
  | c :: cs, h, q => by
    simp only [foldCats]
    rw [lookupD_foldCats cs (bumpCat h c) q, lookupD_bumpCat]
    simp only [List.countP_cons, beq_iff_eq]
    omega

theorem lookupD_categoriesOf (ms : List Feature) (q : String) :
    lookupD (categoriesOf ms) q = ms.countP (fun f => catOf f == q) := by
  rw [categoriesOf, lookupD_foldCats]
  rw [List.countP_map]
  simp [lookupD]
  rfl

theorem catOf_featured (f : Feature) : (catOf f == "Featured") = isFeatured f := by
  unfold catOf isFeatured
  cases hmc : (getProps f).main_category with
  | none => simp
  | some c => simp

/-- The accumulator result dominates the seed. -/
theorem pyFold_snd_ge : ∀ (xs : List (String × Nat)) (b : String × Nat),
    b.2 ≤ (pyFold b xs).2
  | [], b => Nat.le_refl _
  | y :: ys, b => by
    simp only [pyFold, List.foldl_cons]
    by_cases hby : b.2 < y.2
    · rw [if_pos hby]
      exact Nat.le_trans (Nat.le_of_lt hby) (pyFold_snd_ge ys y)
    · rw [if_neg hby]
      exact pyFold_snd_ge ys b

/-- Python's first-maximum rule: the fold's result occurs in the list,
everything strictly before it has a strictly smaller count, and everything
after it has a count at most as large. -/
theorem pyFold_split : ∀ (xs : List (String × Nat)) (b : String × Nat),
    ∃ pre post, b :: xs = pre ++ (pyFold b xs) :: post ∧
      (∀ p ∈ pre, p.2 < (pyFold b xs).2) ∧
      (∀ p ∈ post, p.2 ≤ (pyFold b xs).2)
  | [], b => ⟨[], [], by simp [pyFold], by simp, by simp⟩
  | y :: ys, b => by
    have hstep : pyFold b (y :: ys) = pyFold (if b.2 < y.2 then y else b) ys := by
      simp only [pyFold, List.foldl_cons]
    by_cases hby : b.2 < y.2
    · rw [if_pos hby] at hstep
      obtain ⟨pre, post, heq, hpre, hpost⟩ := pyFold_split ys y
      refine ⟨b :: pre, post, ?_, ?_, by rw [hstep]; exact hpost⟩
      · rw [hstep]
        simpa using heq
      · intro p hp
        rw [hstep]
        rcases List.mem_cons.mp hp with rfl | hp
        · exact Nat.lt_of_lt_of_le hby (pyFold_snd_ge ys y)
        · exact hpre p hp
    · rw [if_neg hby] at hstep
      obtain ⟨pre, post, heq, hpre, hpost⟩ := pyFold_split ys b
      cases pre with
      | nil =>
        simp only [List.nil_append] at heq
        injection heq with h1 h2
        refine ⟨[], y :: post, ?_, by simp, ?_⟩
        · rw [hstep, List.nil_append, ← h1, h2]
        · intro p hp
          rw [hstep]
          rcases List.mem_cons.mp hp with rfl | hp
          · rw [← h1]
            exact Nat.le_of_not_lt hby
          · exact hpost p hp
      | cons a pre2 =>
        simp only [List.cons_append] at heq
        injection heq with h1 h2
        refine ⟨b :: y :: pre2, post, ?_, ?_, by rw [hstep]; exact hpost⟩
        · rw [hstep]
          conv_lhs => rw [h2]
          simp
        · intro p hp
          rw [hstep]
          have hb_lt : b.2 < (pyFold b ys).2 := by
            have := hpre a (List.mem_cons_self a pre2)
            rw [← h1] at this
            exact this
          rcases List.mem_cons.mp hp with rfl | hp
          · exact hb_lt
          · rcases List.mem_cons.mp hp with rfl | hp
            · exact Nat.lt_of_le_of_lt (Nat.le_of_not_lt hby) hb_lt
            · exact hpre p (List.mem_cons_of_mem a hp)

/-! ### Facts about emitted records -/

theorem isClusterRec_tagPoint (f : Feature) : isClusterRec (tagPoint f) = false := rfl

theorem clusterCount_tagPoint (f : Feature) :
    (getProps (tagPoint f)).cluster_count = some 1 := rfl

theorem isFeatured_tagPoint (f : Feature) : isFeatured (tagPoint f) = isFeatured f := rfl

theorem isClusterRec_emitCluster (cid : Nat) (ms : List Feature) (lon lat : ℚ) :
    isClusterRec (emitCluster cid ms lon lat) = true := rfl

theorem clusterCount_emitCluster (cid : Nat) (ms : List Feature) (lon lat : ℚ) :
    (getProps (emitCluster cid ms lon lat)).cluster_count = some ms.length := rfl

theorem categories_emitCluster (cid : Nat) (ms : List Feature) (lon lat : ℚ) :
    (getProps (emitCluster cid ms lon lat)).categories = some (categoriesOf ms) := rfl

theorem coords_emitCluster (cid : Nat) (ms : List Feature) (lon lat : ℚ) :
    (emitCluster cid ms lon lat).coords = .val [lon, lat] := rfl

/-! ### The outer clustering loop conserves members -/

theorem clusterLoopAux_spec (r2 : ℚ) :
    ∀ (fuel : Nat) (l : List Feature) (cid : Nat) (out : List Feature),
      l.length ≤ fuel →
      clusterLoopAux r2 fuel cid l = .ok out →
      sumMemberCounts out = validCount l ∧
      featuredOutCount out = l.countP (fun f => validGeom f && isFeatured f) ∧
      out.length ≤ l.length := by
  intro fuel
  induction fuel with
  | zero =>
    intro l cid out hle h
    have hl0 : l = [] := List.length_eq_zero.mp (Nat.le_zero.mp hle)
    subst hl0
    rw [clusterLoopAux] at h
    cases h
    simp [sumMemberCounts, featuredOutCount, validCount]
  | succ n ih =>
    intro l cid out hle h
    cases l with
    | nil =>
      rw [clusterLoopAux] at h
      cases h
      simp [sumMemberCounts, featuredOutCount, validCount]
    | cons seed rest =>
      rw [clusterLoopAux] at h
      simp only [List.length_cons] at hle
      cases hg : getCoords seed.coords with
      | none =>
        rw [hg] at h
        dsimp only at h
        have hv : validGeom seed = false := by simp [validGeom, hg]
        obtain ⟨e1, e2, e3⟩ := ih rest cid out (by omega) h
        refine ⟨?_, ?_, ?_⟩
        · simpa [validCount, List.countP_cons, hv] using e1
        · simpa [List.countP_cons, hv] using e2
        · simp only [List.length_cons]
          omega
      | some cs =>
        rw [hg] at h
        dsimp only at h
        by_cases hl : cs.length < 2
        · rw [if_pos hl] at h
          have hv : validGeom seed = false := by
            simp [validGeom, hg]
            omega
          obtain ⟨e1, e2, e3⟩ := ih rest cid out (by omega) h
          refine ⟨?_, ?_, ?_⟩
          · simpa [validCount, List.countP_cons, hv] using e1
          · simpa [List.countP_cons, hv] using e2
          · simp only [List.length_cons]
            omega
        · rw [if_neg hl] at h
          have hv : validGeom seed = true := by
            simp [validGeom, hg]
            omega
          cases hscan : scanCands r2 [seed] (nth0 cs) (nth1 cs) rest with
          | error e => rw [hscan] at h; cases h
          | ok q =>
            obtain ⟨members, lon, lat, remaining⟩ := q
            rw [hscan] at h
            dsimp only at h
            have hcnt_val := scanCands_countP r2 validGeom rest [seed] (nth0 cs) (nth1 cs)
              members lon lat remaining hscan
            have hcnt_feat := scanCands_countP r2 (fun f => validGeom f && isFeatured f)
              rest [seed] (nth0 cs) (nth1 cs) members lon lat remaining hscan
            have hmem_valid := scanCands_members_valid r2 rest [seed] (nth0 cs) (nth1 cs)
              members lon lat remaining hscan
              (by
                intro f hf
                rcases List.mem_singleton.mp hf with rfl
                exact hv)
            have hrem_len := scanCands_rem_length r2 rest [seed] (nth0 cs) (nth1 cs)
              members lon lat remaining hscan
            have hmem_len := scanCands_members_length r2 rest [seed] (nth0 cs) (nth1 cs)
              members lon lat remaining hscan
            have b3 : List.countP validGeom [seed] = 1 := by simp [hv]
            have b4 : List.countP (fun f => validGeom f && isFeatured f) [seed]
                = if isFeatured seed then 1 else 0 := by
              simp [List.countP_cons, hv]
            cases members with
            | nil => simp at hmem_len
            | cons m mtl =>
              cases mtl with
              | nil =>
                cases hloop : clusterLoopAux r2 n cid remaining with
                | error e =>
                  rw [hloop] at h
                  simp [consOut] at h
                | ok out2 =>
                  rw [hloop] at h
                  simp only [consOut, Except.ok.injEq] at h
                  subst h
                  obtain ⟨e1, e2, e3⟩ := ih remaining cid out2 (by omega) hloop
                  have hmv : validGeom m = true := hmem_valid m (by simp)
                  have a1 : sumMemberCounts (tagPoint m :: out2)
                      = 1 + sumMemberCounts out2 := by
                    simp [sumMemberCounts, clusterCount_tagPoint]
                  have a2 : featuredOutCount (tagPoint m :: out2)
                      = (if isFeatured m then 1 else 0) + featuredOutCount out2 := by
                    simp only [featuredOutCount, List.map_cons, List.sum_cons,
                      isClusterRec_tagPoint, isFeatured_tagPoint, Bool.false_eq_true, if_false]
                  have b1 : List.countP validGeom [m] = 1 := by simp [hmv]
                  have b2 : List.countP (fun f => validGeom f && isFeatured f) [m]
                      = if isFeatured m then 1 else 0 := by
                    simp [List.countP_cons, hmv]
                  have g1 : validCount (seed :: rest) = validCount rest + 1 := by
                    simp [validCount, List.countP_cons, hv]
                  refine ⟨?_, ?_, ?_⟩
                  · rw [a1, e1, g1]
                    rw [b1, b3] at hcnt_val
                    simp only [validCount]
                    omega
                  · rw [a2, e2]
                    rw [b2, b4] at hcnt_feat
                    rw [hcnt_feat, List.countP_cons]
                    simp only [hv, Bool.true_and]
                    omega
                  · simp only [List.length_cons]
                    omega
              | cons m2 mtl2 =>
                cases hloop : clusterLoopAux r2 n (cid + 1) remaining with
                | error e =>
                  rw [hloop] at h
                  simp [consOut] at h
                | ok out2 =>
                  rw [hloop] at h
                  simp only [consOut, Except.ok.injEq] at h
                  subst h
                  obtain ⟨e1, e2, e3⟩ := ih remaining (cid + 1) out2 (by omega) hloop
                  have hms_val : List.countP validGeom (m :: m2 :: mtl2)
                      = (m :: m2 :: mtl2).length :=
                    List.countP_eq_length.mpr (by
                      intro f hf
                      exact hmem_valid f hf)
                  have hms_feat : List.countP (fun f => validGeom f && isFeatured f)
                        (m :: m2 :: mtl2)
                      = List.countP isFeatured (m :: m2 :: mtl2) :=
                    List.countP_congr (by
                      intro f hf
                      rw [hmem_valid f hf]
                      simp)
                  have hlook : lookupD (categoriesOf (m :: m2 :: mtl2)) "Featured"
                      = List.countP isFeatured (m :: m2 :: mtl2) := by
                    rw [lookupD_categoriesOf]
                    exact List.countP_congr (by
                      intro f hf
                      rw [catOf_featured])
                  have a1 : sumMemberCounts (emitCluster cid (m :: m2 :: mtl2) lon lat :: out2)
                      = (m :: m2 :: mtl2).length + sumMemberCounts out2 := by
                    simp [sumMemberCounts, clusterCount_emitCluster]
                  have a2 : featuredOutCount (emitCluster cid (m :: m2 :: mtl2) lon lat :: out2)
                      = lookupD (categoriesOf (m :: m2 :: mtl2)) "Featured"
                        + featuredOutCount out2 := by
                    simp [featuredOutCount, isClusterRec_emitCluster, categories_emitCluster]
                  have g1 : validCount (seed :: rest) = validCount rest + 1 := by
                    simp [validCount, List.countP_cons, hv]
                  refine ⟨?_, ?_, ?_⟩
                  · rw [a1, e1, g1]
                    rw [hms_val, b3] at hcnt_val
                    simp only [validCount] at hcnt_val ⊢
                    omega
                  · rw [a2, e2, hlook, ← hms_feat, hcnt_feat]
                    simp only [List.countP_cons, List.countP_nil, hv, Bool.true_and]
                    omega
                  · simp only [List.length_cons]
                    omega

/-! ### Properties of the sampling stage -/

theorem countP_filter_partition {α : Type} (p q : α → Bool) :
    ∀ l : List α, (l.filter p).countP q + (l.filter (fun x => ! p x)).countP q = l.countP q
  | [] => by simp
  | a :: l => by
    have ih := countP_filter_partition p q l
    by_cases hp : p a <;> by_cases hq : q a <;>
      simp [List.filter_cons, hp, hq, List.countP_cons] <;> omega

theorem count_filter_partition {α : Type} [BEq α] (p : α → Bool) (l : List α) (a : α) :
    (l.filter p).count a + (l.filter (fun x => ! p x)).count a = l.count a := by
  simpa only [List.count_eq_countP] using countP_filter_partition p (fun x => x == a) l

theorem length_filter_partition {α : Type} (p : α → Bool) (l : List α) :
    (l.filter p).length + (l.filter (fun x => ! p x)).length = l.length := by
  simpa using countP_filter_partition p (fun _ => true) l

theorem sampleStage_count_le (cap rng : Nat) (l : List Feature) (f : Feature) :
    (sampleStage cap rng l).count f ≤ l.count f := by
  have hpart := count_filter_partition isFeatured l f
  unfold sampleStage
  dsimp only
  split_ifs with h1 h2 h3
  · rw [List.count_append]
    omega
  · rw [List.count_append]
    have hs := randomSample_count_le
      (((cap : Int) - (l.filter isFeatured).length).toNat) rng
      (l.filter fun x => ! isFeatured x) f
    omega
  · have h4 := List.Sublist.count_le (List.take_sublist cap (l.filter isFeatured)) f
    have h5 := (List.filter_sublist (p := isFeatured) l).count_le f
    omega
  · exact Nat.le_refl _

theorem sampleStage_length (cap rng : Nat) (l : List Feature) :
    (sampleStage cap rng l).length ≤ cap ∧ (sampleStage cap rng l).length ≤ l.length := by
  have hpart := length_filter_partition isFeatured l
  unfold sampleStage
  dsimp only
  split_ifs with h1 h2 h3
  · rw [List.length_append]
    omega
  · rw [List.length_append]
    have hk := randomSample_length_le_k
      (((cap : Int) - (l.filter isFeatured).length).toNat) rng
      (l.filter fun x => ! isFeatured x)
    have hp := randomSample_length_le_pool
      (((cap : Int) - (l.filter isFeatured).length).toNat) rng
      (l.filter fun x => ! isFeatured x)
    obtain ⟨hslots, hothers⟩ := h2
    omega
  · rw [List.length_take]
    have h5 := (List.filter_sublist (p := isFeatured) l).length_le
    omega
  · exact ⟨by omega, Nat.le_refl _⟩

theorem sampleStage_keeps_featured (cap rng : Nat) (l : List Feature)
    (q : Feature → Bool) (hq : ∀ f, q f = true → isFeatured f = true)
    (hcap : l.countP isFeatured ≤ cap) :
    (sampleStage cap rng l).countP q = l.countP q := by
  have hnotf : ∀ k s, (randomSample k s (l.filter (fun x => ! isFeatured x))).countP q = 0 := by
    intro k s
    rw [List.countP_eq_zero]
    intro a ha hqa
    have hmem := randomSample_subset k s (l.filter (fun x => ! isFeatured x)) a ha
    have hfil := (List.mem_filter.mp hmem).2
    rw [hq a hqa] at hfil
    simp at hfil
  have hothers0 : (l.filter (fun x => ! isFeatured x)).countP q = 0 := by
    rw [List.countP_eq_zero]
    intro a ha hqa
    have hfil := (List.mem_filter.mp ha).2
    rw [hq a hqa] at hfil
    simp at hfil
  have hpart := countP_filter_partition isFeatured q l
  have hfl : (l.filter isFeatured).length = l.countP isFeatured :=
    (List.countP_eq_length_filter isFeatured l).symm
  unfold sampleStage
  dsimp only
  split_ifs with h1 h2 h3
  · rw [List.countP_append]
    omega
  · rw [List.countP_append, hnotf]
    omega
  · rw [List.take_of_length_le (by omega)]
    omega
  · rfl

/-! ### High-zoom pass-through facts -/

theorem createClusters_highZoom (l : List Feature) (zoom : Nat) (hz : 12 ≤ zoom) :
    createClusters l zoom = .ok (l.map tagPoint) := by
  unfold createClusters
  rw [if_pos hz]

theorem featuredOutCount_map_tagPoint (l : List Feature) :
    featuredOutCount (l.map tagPoint) = l.countP isFeatured := by
  induction l with
  | nil => simp [featuredOutCount]
  | cons a l ih =>
    simp only [List.map_cons, featuredOutCount, List.sum_cons, List.countP_cons,
      isClusterRec_tagPoint, isFeatured_tagPoint, Bool.false_eq_true, if_false] at ih ⊢
    omega

theorem filter_isClusterRec_map_tagPoint (l : List Feature) :
    (l.map tagPoint).filter isClusterRec = [] := by
  induction l with
  | nil => simp
  | cons a l ih => simp [List.filter_cons, isClusterRec_tagPoint, ih]

theorem filter_not_isClusterRec_map_tagPoint (l : List Feature) :
    (l.map tagPoint).filter (fun f => ! isClusterRec f) = l.map tagPoint := by
  rw [List.filter_eq_self]
  intro a ha
  obtain ⟨b, hb, rfl⟩ := List.mem_map.mp ha
  simp [isClusterRec_tagPoint]

/-! ### Unfolding `process_features` -/

theorem processFeatures_payload_ok (pyHash : String → Int) (cap rng : Nat)
    (feats : List Feature) (rest : String) (zoom : Nat) (vb : Option BoundsQ)
    (out : List Feature)
    (hne : feats.length ≠ 0)
    (hc : createClusters (sampleStage cap (effRng pyHash rng vb) feats) zoom = .ok out) :
    processFeatures pyHash cap rng (.payload feats rest) zoom vb =
      .result out
        { processed := true
          original_count := feats.length
          returned_count := out.length
          cluster_count := (out.filter isClusterRec).length
          point_count := (out.filter (fun f => ! isClusterRec f)).length
          zoom_level := zoom
          display_mode := if zoom < 12 then "clusters" else "points"
          viewport_bounds := vb } rest := by
  unfold processFeatures
  dsimp only
  rw [if_neg hne, hc]

theorem processFeatures_result (pyHash : String → Int) (cap rng : Nat)
    (feats : List Feature) (rest : String) (zoom : Nat) (vb : Option BoundsQ)
    (out : List Feature) (md : Metadata) (rest2 : String)
    (h : processFeatures pyHash cap rng (.payload feats rest) zoom vb = .result out md rest2) :
    createClusters (sampleStage cap (effRng pyHash rng vb) feats) zoom = .ok out ∧
    md.returned_count = out.length ∧
    md.original_count = feats.length ∧
    md.cluster_count = (out.filter isClusterRec).length ∧
    md.point_count = (out.filter (fun f => ! isClusterRec f)).length ∧
    md.display_mode = (if zoom < 12 then "clusters" else "points") ∧
    md.viewport_bounds = vb ∧ rest2 = rest := by
  unfold processFeatures at h
  dsimp only at h
  by_cases h0 : feats.length = 0
  · rw [if_pos h0] at h
    cases h
  · rw [if_neg h0] at h
    cases hc : createClusters (sampleStage cap (effRng pyHash rng vb) feats) zoom with
    | error e =>
      rw [hc] at h
      cases h
    | ok processed =>
      rw [hc] at h
      cases h
      exact ⟨rfl, rfl, rfl, rfl, rfl, rfl, rfl, rfl⟩

theorem processFeatures_clusterError (pyHash : String → Int) (cap rng : Nat)
    (feats : List Feature) (rest : String) (zoom : Nat) (vb : Option BoundsQ) (e : Unit)
    (he : createClusters (sampleStage cap (effRng pyHash rng vb) feats) zoom = .error e) :
    processFeatures pyHash cap rng (.payload feats rest) zoom vb = .unchanged := by
  unfold processFeatures
  dsimp only
  by_cases h0 : feats.length = 0
  · rw [if_pos h0]
  · rw [if_neg h0, he]

theorem createClusters_length_le (l : List Feature) (zoom : Nat) (out : List Feature)
    (h : createClusters l zoom = .ok out) : out.length ≤ l.length := by
  unfold createClusters at h
  split_ifs at h with hz
  · cases h
    simp
  · exact (clusterLoopAux_spec ((clusterRadiusDeg zoom) ^ 2) l.length l 0 out
      (Nat.le_refl _) h).2.2

/-! ### Histogram key order is first-encounter order -/

theorem bumpCat_ne_nil (h : List (String × Nat)) (c : String) : bumpCat h c ≠ [] := by
  cases h with
  | nil => simp [bumpCat]
  | cons kv t =>
    obtain ⟨k, v⟩ := kv
    simp only [bumpCat]
    split <;> simp

theorem foldCats_ne_nil : ∀ (cs : List String) (h : List (String × Nat)),
    h ≠ [] → foldCats h cs ≠ []
  | [], _, hh => hh
  | c :: cs, h, _ => foldCats_ne_nil cs (bumpCat h c) (bumpCat_ne_nil h c)

theorem keys_bumpCat : ∀ (h : List (String × Nat)) (c : String),
    (bumpCat h c).map Prod.fst =
      if c ∈ h.map Prod.fst then h.map Prod.fst else h.map Prod.fst ++ [c]
  | [], c => by simp [bumpCat]
  | (k, v) :: t, c => by
    simp only [bumpCat]
    by_cases hk : k = c
    · subst hk
      simp
    · rw [if_neg hk]
      have ih := keys_bumpCat t c
      simp only [List.map_cons]
      by_cases hc : c ∈ t.map Prod.fst
      · rw [if_pos hc] at ih
        rw [if_pos (by simp [hc]), ih]
      · rw [if_neg hc] at ih
        have hcc : ¬ c ∈ (k :: t.map Prod.fst) := by
          simp only [List.mem_cons, not_or]
          exact ⟨fun hh => hk hh.symm, hc⟩
        rw [ih]
        simp only [List.map_cons] at hcc
        rw [if_neg hcc]
        simp

theorem keys_foldCats : ∀ (cs : List String) (h : List (String × Nat)),
    (foldCats h cs).map Prod.fst =
      h.map Prod.fst ++ firstEncounterOrder (h.map Prod.fst) cs
  | [], h => by simp [foldCats, firstEncounterOrder]
  | c :: cs, h => by
    simp only [foldCats, firstEncounterOrder]
    rw [keys_foldCats cs (bumpCat h c), keys_bumpCat]
    by_cases hc : c ∈ h.map Prod.fst
    · rw [if_pos hc, if_pos hc]
    · rw [if_neg hc, if_neg hc]
      simp

theorem keys_categoriesOf (ms : List Feature) :
    (categoriesOf ms).map Prod.fst = firstEncounterOrder [] (ms.map catOf) := by
  rw [categoriesOf, keys_foldCats]
  simp

/-! ### Claim C1 — determinism of the pipeline -/

/-- Claim C1 counterexample: with viewport bounds absent, the sampler
draws from the ambient global RNG state, so two invocations of the
pipeline on the same fixed input (3 features, cap 2, zoom 14, no bounds)
can return different output feature lists. -/
theorem claim1_counterexample :
    processFeatures cexHash 2 0 (.payload [fX, fY, fZ] "r") 14 none ≠
      processFeatures cexHash 2 2 (.payload [fX, fY, fZ] "r") 14 none := by
  decide

/-- Claim C1 (amended): whenever viewport bounds are present the pipeline
reseeds the RNG deterministically from the bounds, so its entire output —
in particular the sampled subset of ordinary features — is a function of
`(features, bounds, zoom, cap)` alone, independent of the ambient RNG
state: two invocations produce identical results. -/
theorem claim1_amended (pyHash : String → Int) (cap : Nat) (rng1 rng2 : Nat)
    (u : Upstream) (zoom : Nat) (b : BoundsQ) :
    processFeatures pyHash cap rng1 u zoom (some b) =
      processFeatures pyHash cap rng2 u zoom (some b) := by
  cases u <;> rfl

/-! ### Claim C2 — partition completeness of the clustering pass -/

/-- Claim C2: at clustering zoom (zoom < 12) every geometry-valid feature
of the sampled batch is accounted for in exactly one output record: the
sum of member counts over the emitted records (`cluster_count` for
clusters, 1 for standalone points) equals the number of features with at
least two coordinate components. -/
theorem claim2_partition (feats : List Feature) (zoom : Nat) (out : List Feature)
    (hz : zoom < 12) (h : createClusters feats zoom = .ok out) :
    sumMemberCounts out = validCount feats := by
  unfold createClusters at h
  rw [if_neg (by omega)] at h
  exact (clusterLoopAux_spec ((clusterRadiusDeg zoom) ^ 2) feats.length feats 0 out
    (Nat.le_refl _) h).1

/-- Witness for C2: a 4-feature batch at zoom 5 — two points merge into a
cluster, one stays standalone, one invalid feature is dropped; the member
counts sum to 3, the number of valid inputs. -/
theorem claim2_partition_witness :
    ((5 : Nat) < 12 ∧
      createClusters [fA, fB, fC, fShort] 5 =
        .ok [emitCluster 0 [fA, fB] (1/20) 0, tagPoint fC]) ∧
    sumMemberCounts [emitCluster 0 [fA, fB] (1/20) 0, tagPoint fC] =
      validCount [fA, fB, fC, fShort] := by
  have hc : createClusters [fA, fB, fC, fShort] 5 =
      .ok [emitCluster 0 [fA, fB] (1/20) 0, tagPoint fC] := by
    norm_num [createClusters, clusterLoopAux, scanCands, pushRemaining, consOut, getCoords,
      fA, fB, fC, fShort, nth0, nth1, meanX, meanY, coordsD, getProps, emptyProps,
      clusterRadiusDeg, clusterKm]
  exact ⟨⟨by omega, hc⟩, claim2_partition [fA, fB, fC, fShort] 5 _ (by omega) hc⟩

/-! ### Claim C3 — high-zoom pass-through -/

/-- Claim C3 counterexample: at zoom ≥ 12 the pass-through does not leave
features unmodified except for the two tags — a feature without a `Name`
also receives `Name = "Unknown Site"`. -/
theorem claim3_counterexample :
    createClusters [fNoName] 14 = .ok [tagPoint fNoName] ∧
    (getProps fNoName).Name = none ∧
    (getProps (tagPoint fNoName)).Name = some "Unknown Site" :=
  ⟨rfl, rfl, rfl⟩

/-- Claim C3 (amended): at zoom ≥ 12 no clustering runs — every sampled
feature is emitted with only `is_cluster := false`, `cluster_count := 1`
and a defaulted `Name` (from `eng_name`, else "Unknown Site") written
into its properties, everything else unchanged; the metadata then has
`cluster_count = 0`, `point_count = returned_count` and
`display_mode = "points"`. -/
theorem claim3_amended (pyHash : String → Int) (cap rng : Nat)
    (feats : List Feature) (rest : String) (zoom : Nat) (vb : Option BoundsQ)
    (hz : 12 ≤ zoom) (hne : feats.length ≠ 0) :
    createClusters feats zoom = .ok (feats.map tagPoint) ∧
    processFeatures pyHash cap rng (.payload feats rest) zoom vb =
      .result ((sampleStage cap (effRng pyHash rng vb) feats).map tagPoint)
        { processed := true
          original_count := feats.length
          returned_count := (sampleStage cap (effRng pyHash rng vb) feats).length
          cluster_count := 0
          point_count := (sampleStage cap (effRng pyHash rng vb) feats).length
          zoom_level := zoom
          display_mode := "points"
          viewport_bounds := vb } rest := by
  constructor
  · exact createClusters_highZoom feats zoom hz
  · have hc := createClusters_highZoom (sampleStage cap (effRng pyHash rng vb) feats) zoom hz
    have hres := processFeatures_payload_ok pyHash cap rng feats rest zoom vb _ hne hc
    rw [hres]
    have hnl : ¬ (zoom < 12) := by omega
    simp [List.length_map, filter_isClusterRec_map_tagPoint,
      filter_not_isClusterRec_map_tagPoint, hnl]

/-- Witness for C3 (amended) at a concrete input: one feature without
properties, zoom 14, cap 2000. -/
theorem claim3_amended_witness :
    ((12 : Nat) ≤ 14 ∧ ([fNoName] : List Feature).length ≠ 0) ∧
    (createClusters [fNoName] 14 = .ok ([fNoName].map tagPoint) ∧
      processFeatures cexHash 2000 0 (.payload [fNoName] "r") 14 none =
        .result ((sampleStage 2000 (effRng cexHash 0 none) [fNoName]).map tagPoint)
          { processed := true
            original_count := ([fNoName] : List Feature).length
            returned_count := (sampleStage 2000 (effRng cexHash 0 none) [fNoName]).length
            cluster_count := 0
            point_count := (sampleStage 2000 (effRng cexHash 0 none) [fNoName]).length
            zoom_level := 14
            display_mode := "points"
            viewport_bounds := none } "r") :=
  ⟨⟨by omega, by decide⟩,
   claim3_amended cexHash 2000 0 [fNoName] "r" 14 none (by omega) (by decide)⟩

/-! ### Claim C4 — priority features survive -/

/-- Claim C4 counterexample: a single `Featured` feature whose coordinate
list is empty survives sampling (1 ≤ cap) but is silently dropped by the
clustering pass at zoom 5: the pipeline output is empty, refuting "every
priority feature appears in the output". -/
theorem claim4_counterexample :
    List.countP isFeatured [fFeatBad] ≤ 2000 ∧
    processFeatures cexHash 2000 0 (.payload [fFeatBad] "r") 5 none =
      .result []
        { processed := true
          original_count := 1
          returned_count := 0
          cluster_count := 0
          point_count := 0
          zoom_level := 5
          display_mode := "clusters"
          viewport_bounds := none } "r" ∧
    featuredOutCount [] = 0 :=
  ⟨by decide, by decide, rfl⟩

/-- Claim C4 (amended): when the number of `Featured` features is at most
the cap, the sampler keeps every one of them (the featured count of the
sampled batch equals that of the input); every featured feature that also
carries at least two coordinate components is represented in the pipeline
output, standalone or inside a cluster histogram.  Featured features with
unusable geometry are still dropped by the clustering pass. -/
theorem claim4_amended (pyHash : String → Int) (cap rng : Nat)
    (feats : List Feature) (rest rest2 : String) (zoom : Nat) (vb : Option BoundsQ)
    (out : List Feature) (md : Metadata)
    (hcap : feats.countP isFeatured ≤ cap)
    (h : processFeatures pyHash cap rng (.payload feats rest) zoom vb = .result out md rest2) :
    (sampleStage cap (effRng pyHash rng vb) feats).countP isFeatured
        = feats.countP isFeatured ∧
    feats.countP (fun f => validGeom f && isFeatured f) ≤ featuredOutCount out := by
  have hkeep : (sampleStage cap (effRng pyHash rng vb) feats).countP isFeatured
      = feats.countP isFeatured :=
    sampleStage_keeps_featured cap (effRng pyHash rng vb) feats isFeatured
      (fun _ hf => hf) hcap
  refine ⟨hkeep, ?_⟩
  have hvf : (sampleStage cap (effRng pyHash rng vb) feats).countP
        (fun f => validGeom f && isFeatured f)
      = feats.countP (fun f => validGeom f && isFeatured f) :=
    sampleStage_keeps_featured cap (effRng pyHash rng vb) feats _
      (fun f hf => by
        simp only [Bool.and_eq_true] at hf
        exact hf.2) hcap
  obtain ⟨hc, -⟩ := processFeatures_result pyHash cap rng feats rest zoom vb out md rest2 h
  rcases Nat.lt_or_ge zoom 12 with hz | hz
  · unfold createClusters at hc
    rw [if_neg (by omega)] at hc
    have hcons := (clusterLoopAux_spec ((clusterRadiusDeg zoom) ^ 2)
      (sampleStage cap (effRng pyHash rng vb) feats).length _ 0 out (Nat.le_refl _) hc).2.1
    rw [hcons, hvf]
  · rw [createClusters_highZoom _ zoom hz] at hc
    cases hc
    rw [featuredOutCount_map_tagPoint]
    calc feats.countP (fun f => validGeom f && isFeatured f)
        = (sampleStage cap (effRng pyHash rng vb) feats).countP
            (fun f => validGeom f && isFeatured f) := hvf.symm
      _ ≤ (sampleStage cap (effRng pyHash rng vb) feats).countP isFeatured :=
          List.countP_mono_left (fun x _ hx => by
            simp only [Bool.and_eq_true] at hx
            exact hx.2)

/-- Witness for C4 (amended): one valid `Featured` feature at zoom 5
survives sampling and appears standalone in the output. -/
theorem claim4_amended_witness :
    (List.countP isFeatured [gA] ≤ 2000 ∧
      processFeatures cexHash 2000 0 (.payload [gA] "r") 5 none =
        .result [tagPoint gA]
          { processed := true
            original_count := 1
            returned_count := 1
            cluster_count := 0
            point_count := 1
            zoom_level := 5
            display_mode := "clusters"
            viewport_bounds := none } "r") ∧
    ((sampleStage 2000 (effRng cexHash 0 none) [gA]).countP isFeatured
        = List.countP isFeatured [gA] ∧
      List.countP (fun f => validGeom f && isFeatured f) [gA]
        ≤ featuredOutCount [tagPoint gA]) :=
  ⟨⟨by decide, by decide⟩,
   claim4_amended cexHash 2000 0 [gA] "r" "r" 5 none [tagPoint gA]
     { processed := true, original_count := 1, returned_count := 1, cluster_count := 0,
       point_count := 1, zoom_level := 5, display_mode := "clusters",
       viewport_bounds := none }
     (by decide) (by decide)⟩

/-! ### Claim C5 — bounded, duplication-free sampling -/

/-- Claim C5 counterexample: an input that itself contains the same
feature twice and is under the cap is handed to clustering verbatim, so
the sampled list does contain a duplicated feature. -/
theorem claim5_counterexample :
    sampleStage max_features_for_processing 0 [fX, fX] = [fX, fX] ∧
    ¬ (sampleStage max_features_for_processing 0 [fX, fX]).Nodup := by
  constructor <;> decide

/-- Claim C5 (amended): the sampler never draws a feature more often than
it occurs in the input (so sampling itself introduces no duplicates —
duplicates already present in the input survive), its output length never
exceeds the processing cap (2000) nor the input length, and consequently
`returned_count` never exceeds the cap. -/
theorem claim5_amended (pyHash : String → Int) (rng : Nat) (feats : List Feature)
    (rest : String) (zoom : Nat) (vb : Option BoundsQ) :
    (∀ f, (sampleStage max_features_for_processing rng feats).count f ≤ feats.count f) ∧
    (sampleStage max_features_for_processing rng feats).length
        ≤ max_features_for_processing ∧
    (sampleStage max_features_for_processing rng feats).length ≤ feats.length ∧
    (∀ (out : List Feature) (md : Metadata) (rest2 : String),
      processFeatures pyHash max_features_for_processing rng (.payload feats rest) zoom vb
          = .result out md rest2 →
      md.returned_count ≤ max_features_for_processing) := by
  refine ⟨fun f => sampleStage_count_le _ _ _ f,
          (sampleStage_length _ _ _).1,
          (sampleStage_length _ _ _).2, ?_⟩
  intro out md rest2 h
  obtain ⟨hc, hret, -⟩ :=
    processFeatures_result pyHash _ rng feats rest zoom vb out md rest2 h
  have h1 := createClusters_length_le _ zoom out hc
  have h2 := (sampleStage_length max_features_for_processing
    (effRng pyHash rng vb) feats).1
  rw [hret]
  omega

/-- Witness for C5 (amended): a one-feature payload at zoom 5; the
returned count 1 respects the cap. -/
theorem claim5_amended_witness :
    processFeatures cexHash max_features_for_processing 0 (.payload [fX] "r") 5 none =
      .result [tagPoint fX]
        { processed := true
          original_count := 1
          returned_count := 1
          cluster_count := 0
          point_count := 1
          zoom_level := 5
          display_mode := "clusters"
          viewport_bounds := none } "r" ∧
    ({ processed := true, original_count := 1, returned_count := 1, cluster_count := 0,
       point_count := 1, zoom_level := 5, display_mode := "clusters",
       viewport_bounds := none } : Metadata).returned_count
      ≤ max_features_for_processing :=
  ⟨by decide,
   (claim5_amended cexHash 0 [fX] "r" 5 none).2.2.2 [tagPoint fX]
     { processed := true, original_count := 1, returned_count := 1, cluster_count := 0,
       point_count := 1, zoom_level := 5, display_mode := "clusters",
       viewport_bounds := none } "r" (by decide)⟩

/-! ### Claim C6 — coordinate normalization trigger -/

/-- Claim C6 counterexample: the route tests only `xmin` and `ymin`
(line 263).  An envelope whose `xmax` is far outside geographic range but
whose `xmin`/`ymin` are geographic passes through unchanged, while the
spec's any-of-four rule would convert it (and conversion would change the
east bound); so "projected exactly when any of the four coordinates
exceeds geographic bounds" fails on the code. -/
theorem claim6_counterexample :
    normalizeViewport 0 0 20000000 50 = ⟨0, 0, 20000000, 50⟩ ∧
    specNormalizeViewport 0 0 20000000 50 ≠ ⟨0, 0, 20000000, 50⟩ ∧
    (180 : ℝ) < |(20000000 : ℝ)| := by
  refine ⟨?_, ?_, by norm_num⟩
  · unfold normalizeViewport
    rw [if_neg (by norm_num)]
  · unfold specNormalizeViewport
    rw [if_pos (by norm_num)]
    intro hcontra
    have heast := congrArg BoundsR.east hcontra
    simp only [webmercator_to_wgs84] at heast
    norm_num at heast

/-- Claim C6 (amended): the normalizer applies the spherical Web-Mercator
inverse `lon = x/R·180`, `lat = 180/π·(2·atan(exp(lat·π/180)) − π/2)` with
`R = 20037508.34` to both envelope corners exactly when `|xmin| > 180` or
`|ymin| > 90` — `xmax`/`ymax` are not consulted — and otherwise passes all
four values through unchanged. -/
theorem claim6_amended (xmin ymin xmax ymax : ℝ) :
    (180 < |xmin| ∨ 90 < |ymin| →
      normalizeViewport xmin ymin xmax ymax =
        ⟨(webmercator_to_wgs84 xmin ymin).1, (webmercator_to_wgs84 xmin ymin).2,
         (webmercator_to_wgs84 xmax ymax).1, (webmercator_to_wgs84 xmax ymax).2⟩) ∧
    (¬ (180 < |xmin| ∨ 90 < |ymin|) →
      normalizeViewport xmin ymin xmax ymax = ⟨xmin, ymin, xmax, ymax⟩) := by
  constructor
  · intro h
    unfold normalizeViewport
    rw [if_pos h]
  · intro h
    unfold normalizeViewport
    rw [if_neg h]

/-- Witness for C6 (amended): a projected `xmin` triggers the conversion
of both corners. -/
theorem claim6_amended_witness :
    (180 < |(20000000 : ℝ)| ∨ 90 < |(0 : ℝ)|) ∧
    normalizeViewport 20000000 0 0 0 =
      ⟨(webmercator_to_wgs84 20000000 0).1, (webmercator_to_wgs84 20000000 0).2,
       (webmercator_to_wgs84 0 0).1, (webmercator_to_wgs84 0 0).2⟩ :=
  ⟨by norm_num, (claim6_amended 20000000 0 0 0).1 (by norm_num)⟩

/-! ### Claim C7 — drifting centroid is the member mean -/

/-- Claim C7: the candidate scan measures each candidate against the
current (drifting) centroid and, on absorption, immediately recomputes the
centroid as the arithmetic mean of all current members; hence if the scan
starts from a centroid that is the mean of its members, the final centroid
is the mean of the final member list, and the emitted cluster's geometry
is exactly that mean. -/
theorem claim7_centroid (r2 : ℚ) (cands members : List Feature) (lon lat : ℚ)
    (m2 : List Feature) (lo2 la2 : ℚ) (rem2 : List Feature) (cid : Nat)
    (hx : lon = meanX members) (hy : lat = meanY members)
    (h : scanCands r2 members lon lat cands = .ok (m2, lo2, la2, rem2)) :
    lo2 = meanX m2 ∧ la2 = meanY m2 ∧
    (emitCluster cid m2 lo2 la2).coords = .val [meanX m2, meanY m2] := by
  obtain ⟨h1, h2⟩ := scanCands_centroid r2 cands members lon lat m2 lo2 la2 rem2 h hx hy
  exact ⟨h1, h2, by rw [coords_emitCluster, h1, h2]⟩

/-- Witness for C7: a seed at the origin absorbing a candidate at
(0.1, 0); the final centroid (1/20, 0) is the mean of the two members. -/
theorem claim7_centroid_witness :
    ((0 : ℚ) = meanX [fA] ∧ (0 : ℚ) = meanY [fA] ∧
      scanCands 1 [fA] 0 0 [fB] = .ok ([fA, fB], 1/20, 0, [])) ∧
    ((1/20 : ℚ) = meanX [fA, fB] ∧ (0 : ℚ) = meanY [fA, fB] ∧
      (emitCluster 0 [fA, fB] (1/20) 0).coords = .val [meanX [fA, fB], meanY [fA, fB]]) := by
  have hx : (0 : ℚ) = meanX [fA] := by
    norm_num [meanX, fA, coordsD, getCoords, nth0]
  have hy : (0 : ℚ) = meanY [fA] := by
    norm_num [meanY, fA, coordsD, getCoords, nth1]
  have hscan : scanCands 1 [fA] 0 0 [fB] = .ok ([fA, fB], 1/20, 0, []) := by
    norm_num [scanCands, getCoords, fA, fB, nth0, nth1, meanX, meanY, coordsD]
  exact ⟨⟨hx, hy, hscan⟩, claim7_centroid 1 [fB] [fA] 0 0 [fA, fB] (1/20) 0 [] 0 hx hy hscan⟩

/-! ### Claim C8 — dominant category and tie-breaking -/

/-- Claim C8: for every emitted cluster the recorded dominant category is
an entry of the member-category histogram attaining the maximal count;
entries before it in the histogram have strictly smaller counts and
entries after it counts at most as large (Python's `max` keeps the first
maximum), the histogram counts are the exact member multiplicities, and
the histogram lists categories in first-encounter order of the member
iteration. -/
theorem claim8_dominant (cid : Nat) (m : Feature) (ms : List Feature) (lon lat : ℚ) :
    ∃ d c pre post,
      (getProps (emitCluster cid (m :: ms) lon lat)).main_category = some d ∧
      pyMax (categoriesOf (m :: ms)) = some (d, c) ∧
      categoriesOf (m :: ms) = pre ++ (d, c) :: post ∧
      (∀ p ∈ pre, p.2 < c) ∧
      (∀ p ∈ post, p.2 ≤ c) ∧
      (∀ q, lookupD (categoriesOf (m :: ms)) q
          = (m :: ms).countP (fun f => catOf f == q)) ∧
      (categoriesOf (m :: ms)).map Prod.fst
          = firstEncounterOrder [] ((m :: ms).map catOf) := by
  have hne : categoriesOf (m :: ms) ≠ [] := by
    rw [categoriesOf]
    simp only [List.map_cons, foldCats]
    exact foldCats_ne_nil _ _ (bumpCat_ne_nil [] (catOf m))
  cases hcat : categoriesOf (m :: ms) with
  | nil => exact absurd hcat hne
  | cons x xs =>
    obtain ⟨pre, post, heq, hpre, hpost⟩ := pyFold_split xs x
    refine ⟨(pyFold x xs).1, (pyFold x xs).2, pre, post, ?_, ?_, ?_, hpre, hpost,
      fun q => by rw [← hcat]; exact lookupD_categoriesOf (m :: ms) q,
      by rw [← hcat]; exact keys_categoriesOf (m :: ms)⟩
    · show some (dominantOf (categoriesOf (m :: ms))) = _
      rw [hcat]
      simp [dominantOf, pyMax]
    · simp [pyMax]
    · simpa using heq

/-! ### Claim C9 — graceful degradation -/

/-- Claim C9 counterexample: with cap 2 the sampler reduces a 3-feature
payload to 2 features, one of which carries a JSON-null coordinate value;
clustering then raises, and the engine returns the ORIGINAL 3-feature
payload unchanged — not the 2-feature unclustered sampled batch the claim
describes. -/
theorem claim9_counterexample :
    (sampleStage 2 (effRng cexHash 1 none) [gA, fNull, fC]).length = 2 ∧
    createClusters (sampleStage 2 (effRng cexHash 1 none) [gA, fNull, fC]) 5 = .error () ∧
    processFeatures cexHash 2 1 (.payload [gA, fNull, fC] "r") 5 none = .unchanged ∧
    ([gA, fNull, fC] : List Feature).length = 3 := by
  refine ⟨by decide, by decide, by decide, rfl⟩

/-- Claim C9 (amended): whenever clustering cannot proceed for a
non-per-feature reason — the payload fails to parse, it lacks a
`features` key, or processing raises — the engine does not surface an
error: it degrades by returning the original upstream payload unchanged
(which is unsampled and unclustered, not the sampled batch). -/
theorem claim9_amended (pyHash : String → Int) (cap rng : Nat) (rest : String)
    (zoom : Nat) (vb : Option BoundsQ) :
    processFeatures pyHash cap rng .malformed zoom vb = .unchanged ∧
    processFeatures pyHash cap rng (.noFeatures rest) zoom vb = .unchanged ∧
    (∀ (feats : List Feature) (e : Unit),
      createClusters (sampleStage cap (effRng pyHash rng vb) feats) zoom = .error e →
      processFeatures pyHash cap rng (.payload feats rest) zoom vb = .unchanged) :=
  ⟨rfl, rfl, fun feats e he =>
    processFeatures_clusterError pyHash cap rng feats rest zoom vb e he⟩

/-- Witness for C9 (amended): a concrete payload on which clustering
raises (a JSON-null coordinate reached by the scan) is returned
unchanged. -/
theorem claim9_amended_witness :
    createClusters (sampleStage 2000 (effRng cexHash 0 none) [fA, fNull]) 5 = .error () ∧
    processFeatures cexHash 2000 0 (.payload [fA, fNull] "r") 5 none = .unchanged :=
  ⟨by decide,
   (claim9_amended cexHash 2000 0 "r" 5 none).2.2 [fA, fNull] () (by decide)⟩

/-! ### Claim C10 — empty feature lists pass through -/

/-- Claim C10: a payload whose parsed features list is empty is returned
unchanged — no sampling or clustering runs and no metadata block is added
to the response. -/
theorem claim10_empty_passthrough (pyHash : String → Int) (cap rng : Nat)
    (rest : String) (zoom : Nat) (vb : Option BoundsQ) :
    processFeatures pyHash cap rng (.payload [] rest) zoom vb = .unchanged := rfl

end AtlasProxy
